import Mathlib

/-!
Shallow embedding of `pyscf/fci/direct_dip_corr.py`: the dipole-correlation
Lanczos propagator (`kernel_lanczos`), its tridiagonal reduced-Hamiltonian
assembly, the adaptive time-step formula (`time_limit`), the small-system
dispatch of the direct-CI driver, and the attribute resolution of the
`FCIBase`/`FCISolver` classes.  Machine floats are modelled as exact
rationals (`ℚ`) where the source only adds, multiplies and compares, and as
real numbers (`ℝ`/`ℂ`) where the source takes square roots, real powers or
complex exponentials.  External numerical collaborators (scipy `eigh`,
`expm`, `lib.lanczos_tridiagonalize`) enter as oracle parameters carrying
their outputs; the control flow, array bookkeeping and arithmetic glue are
translated statement by statement from the source.
-/

/-- Complex scalar with exact rational components, modelling a Python
`complex` value in the regimes where the source only adds and multiplies. -/
structure QC where
  re : ℚ
  im : ℚ
deriving DecidableEq, Repr

instance : Zero QC := ⟨⟨0, 0⟩⟩

instance : One QC := ⟨⟨1, 0⟩⟩

instance : Add QC := ⟨fun x y => ⟨x.re + y.re, x.im + y.im⟩⟩

instance : Mul QC := ⟨fun x y => ⟨x.re * y.re - x.im * y.im, x.re * y.im + x.im * y.re⟩⟩

/-- Complex conjugation on `QC` (the `.conj()` calls of the source). -/
def QC.conjQ (x : QC) : QC := ⟨x.re, -x.im⟩

/-- Dot product without conjugation, as `numpy.dot` on two 1-D arrays. -/
def cdot (xs ys : List QC) : QC :=
  ((xs.zip ys).map fun p => p.1 * p.2).foldl (· + ·) 0

/-- Matrix–vector product `numpy.einsum('ji,i->j', U, d)`: row `j` of the
result is the plain dot product of row `j` of `U` with `d`. -/
def matVec (U : List (List QC)) (d : List QC) : List QC :=
  U.map fun row => cdot row d

/-- The reduced-space amplitude vector as initialized by the source:
`d = numpy.zeros(m, complex); d[0] = 1.0 + 0j`. -/
def e1Vec (m : ℕ) : List QC :=
  List.ofFn fun i : Fin m => if (i : ℕ) = 0 then (1 : QC) else 0

/-! ## C1: arity of the value returned by `kernel_lanczos`

`kernel_lanczos` ends with `return e, numpy.array(grid), numpy.array(dipole_corr)`,
a three-component tuple.  `FCIBase.kernel` unpacks that value into five names.
Python tuples are modelled as lists of tagged objects and the five-name
unpacking as a match that raises `ValueError` on any other arity. -/

/-- Tagged Python object appearing in the tuple returned by `kernel_lanczos`. -/
inductive PyObj where
  | float : ℚ → PyObj
  | rarr : List ℚ → PyObj
  | carr : List QC → PyObj
deriving DecidableEq

/-- The tuple built by the final `return` statement of `kernel_lanczos`
(line 925 of the source): the ground energy, the time grid and the
correlation samples — three components. -/
def kernel_lanczos_return (e : ℚ) (grid : List ℚ) (corr : List QC) : List PyObj :=
  [PyObj.float e, PyObj.rarr grid, PyObj.carr corr]

/-- Python tuple unpacking into five names, as performed by `FCIBase.kernel`
on the value of `kernel_lanczos`; any arity other than five raises
`ValueError`. -/
def unpack5 (xs : List PyObj) : Except String (PyObj × PyObj × PyObj × PyObj × PyObj) :=
  match xs with
  | [a, b, c, d, e] => Except.ok (a, b, c, d, e)
  | _ => Except.error "ValueError"

/-! ## C2: the polarization-axis loop

The loop `for i in range(3)` computes `perm_dipole` (only printed), then
executes `if i < 2: continue`, unconditionally skipping the whole propagation
body for axes 0 and 1.  The body overwrites the local `grid`/`dipole_corr`
and appends three per-axis artifact files.  The per-axis body output is an
oracle parameter; the guard and the fold over the axes are from the source. -/

/-- Observable state of the axis loop: artifact filenames written so far, and
the current values of the local `grid` and `dipole_corr` variables. -/
structure AxisState where
  written : List String
  grid : List ℚ
  corr : List QC
deriving DecidableEq

/-- Names of the three artifact files the propagation body writes for axis
`i`: `numpy.save("dip_"+str(i)+".npy", ...)`, `numpy.save("Ht_"+str(i)+".npy", ...)`,
`numpy.savetxt("lan_nodes_"+str(i)+".txt", ...)`. -/
def axisFiles (i : ℕ) : List String :=
  ["dip_" ++ toString i ++ ".npy", "Ht_" ++ toString i ++ ".npy",
   "lan_nodes_" ++ toString i ++ ".txt"]

/-- One iteration of the axis loop.  `bodyOut i` is the `(grid, dipole_corr)`
pair the propagation body would produce for axis `i`; the `if i < 2: continue`
guard skips the body entirely for axes 0 and 1. -/
def runAxis (bodyOut : ℕ → List ℚ × List QC) (s : AxisState) (i : ℕ) : AxisState :=
  if i < 2 then s
  else
    { written := s.written ++ axisFiles i
      grid := (bodyOut i).1
      corr := (bodyOut i).2 }

/-- The full `for i in range(3)` loop of `kernel_lanczos`, started from no
files written and empty local sequences. -/
def kernelAxisLoop (bodyOut : ℕ → List ℚ × List QC) : AxisState :=
  (List.range 3).foldl (runAxis bodyOut) ⟨[], [], []⟩

/-- The value `kernel_lanczos` returns: the Davidson energy together with the
`grid` and `dipole_corr` left by the axis loop. -/
def kernel_lanczos_result (bodyOut : ℕ → List ℚ × List QC) (e : ℚ) : List PyObj :=
  kernel_lanczos_return e (kernelAxisLoop bodyOut).grid (kernelAxisLoop bodyOut).corr

/-! ## C3: assembly of the reduced Hamiltonian `Ht`

Both assembly loops of the source fill `Ht[p,p] = alpha[p,0]` for every
`p < m` and the off-diagonal pair only under the guard `p < len_tdiag - 2`;
the complex pass conjugates the sub-diagonal entry.  The matrix is modelled
as a total function updated imperatively, starting from `numpy.zeros`. -/

/-- Pointwise update of a matrix-as-function: `M[i,j] = v`. -/
def updEntry (M : ℕ → ℕ → QC) (i j : ℕ) (v : QC) : ℕ → ℕ → QC :=
  fun a b => if a = i ∧ b = j then v else M a b

/-- The complex-pass assembly loop of `kernel_lanczos`:
`Ht = numpy.zeros((m, m), complex)`, then for `p in range(m)`:
`Ht[p,p] = alpha[p,0]`, and if `p < m - 2` also `Ht[p,p+1] = beta[p,0]` and
`Ht[p+1,p] = beta[p,0].conj()`. -/
def assembleHt (alpha beta : ℕ → QC) (m : ℕ) : ℕ → ℕ → QC :=
  (List.range m).foldl
    (fun Ht p =>
      let Ht1 := updEntry Ht p p (alpha p)
      if p < m - 2 then
        updEntry (updEntry Ht1 p (p + 1) (beta p)) (p + 1) p (beta p).conjQ
      else Ht1)
    (fun _ _ => 0)

/-! ## The propagation loop of `kernel_lanczos`

The per-restart heavy numerics — the Lanczos tridiagonalization of the
reconstructed vector, the eigendecomposition of `Ht`, the matrix exponential
`U = expm(-1j*Ht*t_lim)` and the adaptive step `t_lim`, and the phase factor
`numpy.exp(1j*e*t)` — are external library calls; their outputs enter as an
oracle `od` indexed by the loop counter and fed the propagated amplitudes.
The loop's own bookkeeping (the order of the appends to `grid` and
`dipole_corr`, the advance of `t`, and the handling of the amplitude vector
`d`) is translated statement by statement. -/

/-- Outputs of one in-loop restart delivered by the external numerics:
the Krylov-projected dipole vector `Amu0`, the adaptive step `t_lim`, the
phase factor `exp(1j*e*t)` at the current time, and the propagator matrix
`U = expm(-1j*Ht*t_lim)` for the next iteration. -/
structure RestartData where
  Amu0 : List QC
  tlim : ℚ
  phase : QC
  U : List (List QC)

/-- State of the `while (t < maxtime)` loop: the cumulative time `t`, the
`grid` and `dipole_corr` sequences, the reduced-space amplitude vector `d`,
and the current propagator matrix `U`. -/
structure PropState where
  t : ℚ
  grid : List ℚ
  corr : List QC
  d : List QC
  U : List (List QC)
deriving DecidableEq

/-- One execution of the `while` body: `d_next = einsum('ji,i->j', U, d)`
feeds the full-space reconstruction consumed by the external numerics
(`od k d_next`); then `dipole_corr.append(numpy.dot(Amu0, d) * exp(1j*e*t))`
with the current `t` and the (unchanged) `d`, then `t += t_lim` and
`grid.append(t)`.  The source never reassigns `d`. -/
def loopBody (od : ℕ → List QC → RestartData) (k : ℕ) (s : PropState) : PropState :=
  let dnext := matVec s.U s.d
  let r := od k dnext
  { t := s.t + r.tlim
    grid := s.grid ++ [s.t + r.tlim]
    corr := s.corr ++ [cdot r.Amu0 s.d * r.phase]
    d := s.d
    U := r.U }

/-- State right before the `while` loop, from the pre-loop statements of the
axis body: `d = zeros(m0); d[0] = 1`, `t = 0`, `grid.append(0)`,
`dipole_corr.append(numpy.dot(Amu0, d) * exp(1j*e*0))`, `U = expm(-1j*Ht*t_lim)`,
`t += t_lim`, `grid.append(t)`.  The first restart's `Amu0`, phase factor,
propagator and step are parameters. -/
def preLoop (m0 : ℕ) (Amu00 : List QC) (phase0 : QC) (U0 : List (List QC))
    (tlim0 : ℚ) : PropState :=
  { t := tlim0
    grid := [0, tlim0]
    corr := [cdot Amu00 (e1Vec m0) * phase0]
    d := e1Vec m0
    U := U0 }

/-- The `while (t < maxtime)` loop with explicit fuel: `some` is the state at
normal exit, `none` means the fuel ran out while the guard still held (the
source loop has no iteration ceiling). -/
def propRun (od : ℕ → List QC → RestartData) (maxtime : ℚ) :
    ℕ → ℕ → PropState → Option PropState
  | 0, _, s => if s.t < maxtime then none else some s
  | fuel + 1, k, s =>
    if s.t < maxtime then propRun od maxtime fuel (k + 1) (loopBody od k s)
    else some s

/-- State after `n` unguarded executions of the `while` body starting from
`s` at loop counter `k`: the state entering in-loop restart `n + 1`. -/
def iterBody (od : ℕ → List QC → RestartData) (k : ℕ) (s : PropState) : ℕ → PropState
  | 0 => s
  | n + 1 => loopBody od (k + n) (iterBody od k s n)

/-! ## C9: small-system dispatch of the direct-CI driver

Lines 687–712 of the source (identical in `kernel_ms1`): after
`nroots = min(hdiag.size, nroots)` with `hdiag.size = na*nb`, the direct
pspace shortcut is guarded by `pspace_size >= na*nb and ci0 is None and not
davidson_only`, then branches on `na*nb == 1`, `nroots > 1`, and
`abs(pw[0]-pw[1]) > 1e-12`; every other case falls through to the Davidson
iteration.  `pw` is the pspace eigenvalue array. -/

/-- The four ways the driver can produce its result. -/
inductive KernelPath where
  | singleDet
  | multiRoot
  | pspaceSlice
  | davidson
deriving DecidableEq

/-- The dispatch of `kernel_lanczos` between the direct pspace shortcuts and
the full Davidson iteration. -/
def kernel_lanczos_dispatch (pspace_size na nb nroots0 : ℕ)
    (ci0_given davidson_only : Bool) (pw : ℕ → ℚ) : KernelPath :=
  let nroots := min (na * nb) nroots0
  if na * nb ≤ pspace_size ∧ ci0_given = false ∧ davidson_only = false then
    if na * nb = 1 then KernelPath.singleDet
    else if 1 < nroots then KernelPath.multiRoot
    else if 1 / 10 ^ 12 < |pw 0 - pw 1| then KernelPath.pspaceSlice
    else KernelPath.davidson
  else KernelPath.davidson

/-! ## C10: attribute resolution of `FCIBase.energy`

`FCIBase.energy` first unpacks `nelec`, then calls `self.absorb_h1e` (which
raises `NotImplementedError` when `h1e` or `eri` has complex dtype), then
looks up `self.contract_2e_complex`.  The lookup walks the instance
dictionary and the classes `FCISolver`, `FCIBase` and their external base;
the names below are transcribed from the class bodies of the source. -/

/-- Python exceptions relevant to `FCIBase.energy`. -/
inductive PyError where
  | notImplementedError
  | attributeError
deriving DecidableEq

/-- Methods and properties defined in the body of `class FCIBase`, plus its
class attributes and the instance attributes set in `__init__`. -/
def FCIBase_attrs : List String :=
  ["max_cycle", "max_space", "conv_tol", "conv_tol_residual", "lindep",
   "level_shift", "davidson_only", "pspace_size", "threads", "lessio",
   "e_tot", "nstates", "dump_flags", "absorb_h1e", "make_hdiag", "pspace",
   "contract_1e", "contract_2e", "eig", "make_precond", "get_init_guess",
   "kernel", "energy", "spin_square", "make_rdm1s", "make_rdm1",
   "make_rdm12s", "make_rdm12", "make_rdm2", "trans_rdm1s", "trans_rdm1",
   "trans_rdm12s", "trans_rdm12", "large_ci", "contract_ss", "gen_linkstr",
   "stdout", "verbose", "max_memory", "mol", "nroots", "spin", "orbsym",
   "wfnsym", "converged", "norb", "nelec", "eci", "ci"]

/-- Methods defined in the body of `class FCISolver(FCIBase)`. -/
def FCISolver_attrs : List String :=
  ["transform_ci_for_orbital_rotation"]

/-- Modelled from the spec: `pyscf.lib.StreamObject`, the external base class
of `FCIBase`, is not under src.  The spec's component inventory assigns every
Hamiltonian contraction to the Operator collaborator and to this module, so
the base class is modelled as contributing only generic stream utilities and
in particular no attribute named `contract_2e_complex`. -/
def StreamObject_attrs : List String :=
  ["verbose", "stdout", "max_memory", "run", "set", "apply", "view",
   "check_sanity", "kernel", "post_kernel", "pre_kernel", "copy"]

/-- Attribute lookup on an `FCISolver` instance: instance/class dictionaries
of `FCISolver`, `FCIBase` and the external base, in method-resolution order. -/
def fcisolverHasAttr (name : String) : Bool :=
  FCISolver_attrs.contains name || FCIBase_attrs.contains name ||
    StreamObject_attrs.contains name

/-- The complex-dtype rejection at the top of `absorb_h1e` (and of
`make_hdiag`/`pspace`): `raise NotImplementedError('Complex Hamiltonian')`
when either integral array has complex dtype; otherwise the modified
two-electron Hamiltonian is built (its value is irrelevant to `energy`,
which fails before ever using it). -/
def absorb_h1e_step (h1eComplex eriComplex : Bool) : Except PyError Unit :=
  if h1eComplex || eriComplex then Except.error PyError.notImplementedError
  else Except.ok ()

/-- The body of `FCIBase.energy`: build `h2e` via `absorb_h1e`, then resolve
the attribute `contract_2e_complex` before calling it; an unresolvable
attribute raises `AttributeError`.  The CI vector argument is never reached. -/
def FCIBase_energy (h1eComplex eriComplex : Bool) (_fcivec : List QC) :
    Except PyError Unit :=
  match absorb_h1e_step h1eComplex eriComplex with
  | Except.error err => Except.error err
  | Except.ok _ =>
    if fcisolverHasAttr "contract_2e_complex" then Except.ok ()
    else Except.error PyError.attributeError

/-- The full `m×m` tridiagonal matrix of the Lanczos recurrence coefficients,
as the spec describes `Ht` and as the first pass feeds it whole to
`scipy.linalg.eigh_tridiagonal(alpha[0:m,0], beta[0:m-1,0])`: diagonal
`alpha`, and both off-diagonal entries present for every `p < m - 1`. -/
def specTridiag (alpha beta : ℕ → QC) (m : ℕ) : ℕ → ℕ → QC :=
  fun p q =>
    if p = q ∧ p < m then alpha p
    else if q = p + 1 ∧ p + 1 < m then beta p
    else if p = q + 1 ∧ q + 1 < m then (beta q).conjQ
    else 0

/-! ## C6 and C7: real-arithmetic fragments

The seed normalization, the t = 0 correlation sample, and the adaptive
time-step function `time_limit` involve square roots, real powers and the
complex exponential, so they are embedded over `ℝ` and `ℂ`. -/

noncomputable section

/-- Dot product of two length-`n` real vectors, as `numpy.dot` on 1-D real
arrays. -/
def dotR (n : ℕ) (u v : ℕ → ℝ) : ℝ :=
  ∑ k in Finset.range n, u k * v k

/-- The normalized dipole-excited seed: `mu_0[i] *= 1.0/nrm2`, where `nrm2`
is the Euclidean norm computed by `numpy.linalg.norm`. -/
def mu0vec (v : ℕ → ℝ) (nrm2 : ℝ) : ℕ → ℝ :=
  fun k => v k * (1 / nrm2)

/-- Modelled from the spec: `lib.lanczos_tridiagonalize` is not under src.
Per the spec, BuildingKrylov produces an orthonormal basis whose first
vector is the normalized seed, so `A[0] = x0 / ‖x0‖`. -/
def lanczosFirstVec (n : ℕ) (x0 : ℕ → ℝ) : ℕ → ℝ :=
  fun k => x0 k / Real.sqrt (dotR n x0 x0)

/-- The reduced-space amplitude vector `d` at t = 0 as a complex function:
`d[0] = 1.0 + 0j`, every other entry zero. -/
def e1C (k : ℕ) : ℂ :=
  if k = 0 then 1 else 0

/-- The t = 0 correlation sample of a polarization axis:
`Amu0[k] = numpy.dot(A[k], mu_0[i])` for the `m` Krylov vectors, then
`numpy.dot(Amu0, d) * numpy.exp(1j*e*t)` at `t = 0`. -/
def t0Sample (n m : ℕ) (A : ℕ → ℕ → ℝ) (mu : ℕ → ℝ) (e : ℝ) : ℂ :=
  (∑ k in Finset.range m, ((dotR n (A k) mu : ℝ) : ℂ) * e1C k) *
    Complex.exp (Complex.I * e * 0)

/-- The adaptive time-step function `time_limit(T, v, thr, lanczos)` of the
source, translated statement by statement for the real-valued arrays it is
invoked on (the `.conj()` call is the identity there):
`lp = numpy.power(v, lanczos-1)`, `vTdag = lp * T[:, lanczos-1]`,
`nrm = numpy.linalg.norm(vTdag)`, `ratio = factorial(lanczos-1)/nrm`,
`tmax = pow(ratio, 1.0/(lanczos-1)) * pow(thr, 0.5/(lanczos-1))`. -/
def time_limit (T : ℕ → ℕ → ℝ) (v : ℕ → ℝ) (thr : ℝ) (lanczos : ℕ) : ℝ :=
  let lp : ℕ → ℝ := fun k => v k ^ (lanczos - 1)
  let vTdag : ℕ → ℝ := fun k => lp k * T k (lanczos - 1)
  let nrm : ℝ := Real.sqrt (∑ k in Finset.range lanczos, vTdag k ^ 2)
  let ratio : ℝ := (Nat.factorial (lanczos - 1) : ℝ) / nrm
  ratio ^ ((1 : ℝ) / ((lanczos - 1 : ℕ) : ℝ)) *
    thr ^ ((0.5 : ℝ) / ((lanczos - 1 : ℕ) : ℝ))

/-- The spec's time-step formula, written from its words for a restart with
Krylov dimension `m`, eigenvalues `w` and (possibly complex) eigenvectors
`T`: `t_lim = (factorial(m-1) / ‖w^(m-1) ⊙ T[:,m-1]‖)^(1/(m-1)) · thr^(0.5/(m-1))`. -/
def specTimeLimit (m : ℕ) (w : ℕ → ℝ) (T : ℕ → ℕ → ℂ) (thr : ℝ) : ℝ :=
  let nrm : ℝ :=
    Real.sqrt (∑ k in Finset.range m, Complex.normSq ((w k ^ (m - 1) : ℝ) * T k (m - 1)))
  ((Nat.factorial (m - 1) : ℝ) / nrm) ^ ((1 : ℝ) / ((m - 1 : ℕ) : ℝ)) *
    thr ^ ((0.5 : ℝ) / ((m - 1 : ℕ) : ℝ))

/-- Concrete complex eigenvector matrix used to separate the source's
`time_limit(T.real, w.real, ...)` from the spec's formula on `T` itself. -/
def Tcex : ℕ → ℕ → ℂ :=
  fun p q =>
    if p = 0 ∧ q = 1 then Complex.I * ((3 / 5 : ℝ) : ℂ)
    else if p = 1 ∧ q = 1 then ((4 / 5 : ℝ) : ℂ)
    else 0

end

/-- Invariant of the propagation loop's time grid: the last grid entry is the
current time `t`, the grid is non-decreasing, every entry before the last
stayed below `maxtime`, and the current time was reached from some instant
below `maxtime` by one non-negative step. -/
def GridInv (maxtime : ℚ) (s : PropState) : Prop :=
  s.grid.getLast? = some s.t ∧
  List.Chain' (· ≤ ·) s.grid ∧
  (∀ x ∈ s.grid.dropLast, x < maxtime) ∧
  ∃ prev step, 0 ≤ step ∧ prev < maxtime ∧ s.t = prev + step

/-- C1: for every invocation reaching the final `return` of
`kernel_lanczos`, the returned tuple has three components, so the
five-name unpacking performed by `FCIBase.kernel` raises `ValueError`;
no invocation yields the five components the claim describes. -/
theorem kernel_unpack_always_fails (bodyOut : ℕ → List ℚ × List QC) (e : ℚ) :
    unpack5 (kernel_lanczos_result bodyOut e) = Except.error "ValueError" :=
  rfl

/-- C2: the axis loop leaves the state untouched for axes 0 and 1, and the
final artifact files, time grid and correlation samples all come from the
body's single execution at axis 2. -/
theorem axis_loop_skips_first_two (bodyOut : ℕ → List ℚ × List QC) :
    (∀ s : AxisState, runAxis bodyOut s 0 = s) ∧
    (∀ s : AxisState, runAxis bodyOut s 1 = s) ∧
    kernelAxisLoop bodyOut =
      { written := axisFiles 2, grid := (bodyOut 2).1, corr := (bodyOut 2).2 } :=
  ⟨fun _ => rfl, fun _ => rfl, rfl⟩

/-- C3: at Krylov dimension 2 the assembly loop leaves both off-diagonal
entries of `Ht` at zero even though the recurrence produced `beta[0] = 1`,
while the full tridiagonal matrix (which the same restart hands to
`eigh_tridiagonal`) carries it. -/
theorem assembleHt_drops_last_offdiag :
    assembleHt (fun _ => ⟨7, 0⟩) (fun _ => ⟨1, 0⟩) 2 0 1 = (0 : QC) ∧
    assembleHt (fun _ => ⟨7, 0⟩) (fun _ => ⟨1, 0⟩) 2 1 0 = (0 : QC) ∧
    specTridiag (fun _ => ⟨7, 0⟩) (fun _ => ⟨1, 0⟩) 2 0 1 = (⟨1, 0⟩ : QC) ∧
    (⟨1, 0⟩ : QC) ≠ (0 : QC) := by
  refine ⟨?_, ?_, ?_, ?_⟩ <;> decide

/-- Unfolding lemma for the `QC` product on explicit components. -/
theorem QC.mk_mul_mk (a b c d : ℚ) :
    (⟨a, b⟩ * ⟨c, d⟩ : QC) = ⟨a * c - b * d, a * d + b * c⟩ :=
  rfl

/-- Unfolding lemma for the `QC` sum on explicit components. -/
theorem QC.mk_add_mk (a b c d : ℚ) :
    (⟨a, b⟩ + ⟨c, d⟩ : QC) = ⟨a + c, b + d⟩ :=
  rfl

/-- Zero is a left absorber for the `QC` product. -/
theorem QC.zero_mul (x : QC) : 0 * x = 0 := by
  cases x with
  | mk a b =>
    rw [show (0 : QC) = ⟨0, 0⟩ from rfl, QC.mk_mul_mk]
    norm_num

/-- Zero is a right absorber for the `QC` product. -/
theorem QC.mul_zero (x : QC) : x * 0 = 0 := by
  cases x with
  | mk a b =>
    rw [show (0 : QC) = ⟨0, 0⟩ from rfl, QC.mk_mul_mk]
    norm_num

/-- One is a left unit for the `QC` product. -/
theorem QC.one_mul (x : QC) : 1 * x = x := by
  cases x with
  | mk a b =>
    rw [show (1 : QC) = ⟨1, 0⟩ from rfl, QC.mk_mul_mk]
    norm_num

/-- Zero is a left unit for the `QC` sum. -/
theorem QC.zero_add (x : QC) : 0 + x = x := by
  cases x with
  | mk a b =>
    rw [show (0 : QC) = ⟨0, 0⟩ from rfl, QC.mk_add_mk]
    norm_num

/-- Zero is a right unit for the `QC` sum. -/
theorem QC.add_zero (x : QC) : x + 0 = x := by
  cases x with
  | mk a b =>
    rw [show (0 : QC) = ⟨0, 0⟩ from rfl, QC.mk_add_mk]
    norm_num

/-- C5 (counterexample): with the pre-loop propagator a coordinate swap, the
amplitude vector entering the second in-loop restart still equals `e_1` and
differs from the amplitudes the first in-loop restart propagated. -/
theorem amplitude_not_carried_cex :
    (iterBody (fun _ _ => RestartData.mk [] 1 1 []) 1
        (preLoop 2 [] 1 [[0, 1], [1, 0]] 1) 1).d ≠
      matVec (preLoop 2 [] 1 [[0, 1], [1, 0]] 1).U
        (preLoop 2 [] 1 [[0, 1], [1, 0]] 1).d := by
  have hL : (iterBody (fun _ _ => RestartData.mk [] 1 1 []) 1
      (preLoop 2 [] 1 [[0, 1], [1, 0]] 1) 1).d = [(1 : QC), 0] := rfl
  have hR : matVec (preLoop 2 [] 1 [[0, 1], [1, 0]] 1).U
      (preLoop 2 [] 1 [[0, 1], [1, 0]] 1).d = [(0 : QC), 1] := by
    show matVec [[0, 1], [1, 0]] [(1 : QC), 0] = [(0 : QC), 1]
    simp [matVec, cdot, QC.zero_mul, QC.mul_zero, QC.one_mul, QC.zero_add,
      QC.add_zero]
  rw [hL, hR]
  decide

/-- C5 (amended): the reduced-space amplitude vector equals the first
canonical basis vector at the first restart and at every later restart:
the source initializes `d` once and never reassigns it, carrying the
propagated amplitudes forward only through the reconstructed full-space
vector. -/
theorem amplitude_vector_always_e1 (od : ℕ → List QC → RestartData) (m0 : ℕ)
    (Amu00 : List QC) (phase0 : QC) (U0 : List (List QC)) (tlim0 : ℚ) (n : ℕ) :
    (iterBody od 1 (preLoop m0 Amu00 phase0 U0 tlim0) n).d = e1Vec m0 := by
  induction n with
  | zero => rfl
  | succ n ih =>
    show (loopBody od (1 + n) (iterBody od 1 (preLoop m0 Amu00 phase0 U0 tlim0) n)).d
        = e1Vec m0
    simpa [loopBody] using ih

/-- C9: with the pspace covering the whole determinant space, no initial
guess, `davidson_only` off, one requested root, a space larger than one
determinant, and the two lowest pspace eigenvalues closer than 1e-12, the
driver bypasses every direct shortcut and takes the Davidson path. -/
theorem near_degenerate_goes_davidson
    (pspace_size na nb nroots0 : ℕ) (pw : ℕ → ℚ)
    (hps : na * nb ≤ pspace_size) (hgt : 1 < na * nb) (hnr : nroots0 = 1)
    (hdeg : |pw 0 - pw 1| < 1 / 10 ^ 12) :
    kernel_lanczos_dispatch pspace_size na nb nroots0 false false pw =
      KernelPath.davidson := by
  subst hnr
  have h1 : ¬ na * nb = 1 := by omega
  have h2 : ¬ 1 < min (na * nb) 1 := by
    have := min_le_right (na * nb) 1
    omega
  have h3 : ¬ (1 / 10 ^ 12 : ℚ) < |pw 0 - pw 1| := not_lt.mpr hdeg.le
  simp only [kernel_lanczos_dispatch, eq_self_iff_true, and_true]
  rw [if_pos hps, if_neg h1, if_neg h2, if_neg h3]

/-- Witness for `near_degenerate_goes_davidson` at a concrete 2×2 space with
exactly degenerate pspace eigenvalues. -/
theorem near_degenerate_goes_davidson_witness :
    2 * 2 ≤ 4 ∧ 1 < 2 * 2 ∧ |(fun _ : ℕ => (0 : ℚ)) 0 - (fun _ : ℕ => (0 : ℚ)) 1| < 1 / 10 ^ 12 ∧
    kernel_lanczos_dispatch 4 2 2 1 false false (fun _ => 0) = KernelPath.davidson :=
  ⟨by norm_num, by norm_num, by norm_num,
    near_degenerate_goes_davidson 4 2 2 1 (fun _ => 0) (by norm_num) (by norm_num) rfl
      (by norm_num)⟩

/-- C10 (counterexample): a call to `FCIBase.energy` with complex-dtype
`h1e` raises `NotImplementedError` inside `absorb_h1e`, not an
attribute-lookup error. -/
theorem energy_complex_input_cex :
    FCIBase_energy true false [] = Except.error PyError.notImplementedError ∧
    Except.error PyError.notImplementedError ≠
      (Except.error PyError.attributeError : Except PyError Unit) := by
  refine ⟨rfl, ?_⟩
  simp

/-- C10 (amended): `contract_2e_complex` resolves on no class in the chain,
so every `FCIBase.energy` call whose integrals pass the complex-dtype check
fails with `AttributeError` before touching the CI vector. -/
theorem energy_real_input_attribute_error :
    fcisolverHasAttr "contract_2e_complex" = false ∧
    ∀ fcivec : List QC,
      FCIBase_energy false false fcivec = Except.error PyError.attributeError :=
  ⟨rfl, fun _ => rfl⟩

/-- Any successful run of the propagation loop preserves the property that
the time grid is one entry longer than the correlation-sample list, since
each body execution appends exactly one entry to both. -/
theorem propRun_grid_len (od : ℕ → List QC → RestartData) (maxtime : ℚ) :
    ∀ fuel k s st, s.grid.length = s.corr.length + 1 →
      propRun od maxtime fuel k s = some st →
      st.grid.length = st.corr.length + 1 := by
  intro fuel
  induction fuel with
  | zero =>
    intro k s st h hrun
    unfold propRun at hrun
    split at hrun
    · exact absurd hrun (by simp)
    · cases hrun
      exact h
  | succ n ih =>
    intro k s st h hrun
    unfold propRun at hrun
    split at hrun
    · exact ih _ _ _ (by simp [loopBody, h]) hrun
    · cases hrun
      exact h

/-- C4 (counterexample): a finished run whose time grid and sample list have
different lengths: after the pre-loop block the grid already holds two time
points against a single sample, and a first step past `maxtime` ends the
loop there. -/
theorem grid_corr_equal_length_cex :
    propRun (fun _ _ => RestartData.mk [] 1 1 []) 1 0 1 (preLoop 1 [] 1 [] 2)
        = some (preLoop 1 [] 1 [] 2) ∧
    (preLoop 1 [] 1 [] 2).grid.length ≠ (preLoop 1 [] 1 [] 2).corr.length :=
  ⟨rfl, by decide⟩

/-- C4 (amended): whenever the propagation loop finishes, the time grid has
exactly one more entry than the correlation-sample sequence — sample `j`
belongs to time point `j`, and the grid carries one extra trailing time
point appended after the last sample. -/
theorem grid_one_longer_than_corr (od : ℕ → List QC → RestartData)
    (maxtime : ℚ) (m0 : ℕ) (Amu00 : List QC) (phase0 : QC)
    (U0 : List (List QC)) (tlim0 : ℚ) (fuel : ℕ) (st : PropState)
    (hrun : propRun od maxtime fuel 1 (preLoop m0 Amu00 phase0 U0 tlim0) = some st) :
    st.grid.length = st.corr.length + 1 :=
  propRun_grid_len od maxtime fuel 1 _ st (by simp [preLoop]) hrun

/-- Witness for `grid_one_longer_than_corr` on a concrete zero-iteration run. -/
theorem grid_one_longer_than_corr_witness :
    propRun (fun _ _ => RestartData.mk [] 1 1 []) 1 0 1 (preLoop 1 [] 1 [] 2)
        = some (preLoop 1 [] 1 [] 2) ∧
    (preLoop 1 [] 1 [] 2).grid.length = (preLoop 1 [] 1 [] 2).corr.length + 1 :=
  ⟨rfl, grid_one_longer_than_corr (fun _ _ => RestartData.mk [] 1 1 []) 1 1 [] 1 [] 2 0
    (preLoop 1 [] 1 [] 2) rfl⟩

/-- One body execution under a live guard preserves the grid invariant. -/
theorem gridInv_loopBody (od : ℕ → List QC → RestartData) (maxtime : ℚ)
    (htl : ∀ k v, 0 ≤ (od k v).tlim) (k : ℕ) (s : PropState)
    (hc : s.t < maxtime) (h : GridInv maxtime s) :
    GridInv maxtime (loopBody od k s) := by
  obtain ⟨hlast, hchain, hdrop, -⟩ := h
  refine ⟨?_, ?_, ?_, ?_⟩
  · simp [loopBody, List.getLast?_concat]
  · show List.Chain' (· ≤ ·) (s.grid ++ [s.t + (od k (matVec s.U s.d)).tlim])
    refine hchain.append (List.chain'_singleton _) ?_
    intro x hx y hy
    rw [hlast, Option.mem_some_iff] at hx
    simp only [List.head?_cons, Option.mem_some_iff] at hy
    subst hx
    subst hy
    exact le_add_of_nonneg_right (htl k _)
  · show ∀ x ∈ (s.grid ++ [s.t + (od k (matVec s.U s.d)).tlim]).dropLast, x < maxtime
    rw [List.dropLast_concat]
    intro x hx
    have hne : s.grid ≠ [] := by
      intro hnil
      rw [hnil] at hlast
      simp at hlast
    rw [← List.dropLast_append_getLast hne] at hx
    rcases List.mem_append.mp hx with h' | h'
    · exact hdrop x h'
    · have hx' : x = s.grid.getLast hne := by simpa using h'
      have hlast' : s.grid.getLast hne = s.t := by
        have := List.getLast?_eq_getLast s.grid hne
        rw [hlast] at this
        exact (Option.some_injective _ this).symm
      rw [hx', hlast']
      exact hc
  · exact ⟨s.t, (od k (matVec s.U s.d)).tlim, htl k _, hc, rfl⟩

/-- The grid invariant is preserved by every terminating run of the loop. -/
theorem gridInv_propRun (od : ℕ → List QC → RestartData) (maxtime : ℚ)
    (htl : ∀ k v, 0 ≤ (od k v).tlim) :
    ∀ fuel k s st, GridInv maxtime s → propRun od maxtime fuel k s = some st →
      GridInv maxtime st := by
  intro fuel
  induction fuel with
  | zero =>
    intro k s st h hrun
    unfold propRun at hrun
    split at hrun
    · exact absurd hrun (by simp)
    · cases hrun
      exact h
  | succ n ih =>
    intro k s st h hrun
    unfold propRun at hrun
    split at hrun
    case isTrue hc => exact ih _ _ _ (gridInv_loopBody od maxtime htl k s hc h) hrun
    case isFalse => cases hrun; exact h

/-- C8 (counterexample): with every step estimate non-negative as the claim
assumes, but a non-positive `maxtime`, a finished run has a non-final grid
entry that is not below `maxtime`. -/
theorem time_grid_bound_cex :
    (0 : ℚ) ≤ 1 ∧
    propRun (fun _ _ => RestartData.mk [] 1 1 []) (-1) 0 1 (preLoop 1 [] 1 [] 1)
        = some (preLoop 1 [] 1 [] 1) ∧
    ¬ ∀ x ∈ (preLoop 1 [] 1 [] 1).grid.dropLast, x < (-1 : ℚ) := by
  refine ⟨by norm_num, rfl, ?_⟩
  intro hall
  have := hall 0 (by simp [preLoop])
  norm_num at this

/-- C8 (amended): assuming every adaptive step is non-negative and
`maxtime > 0`, a finished propagation run has a non-decreasing time grid,
every entry before the last below `maxtime`, and a last entry reached from
an instant below `maxtime` by a single non-negative step — so it exceeds
`maxtime` by at most that one step. -/
theorem time_grid_monotone_bounded (od : ℕ → List QC → RestartData)
    (maxtime : ℚ) (m0 : ℕ) (Amu00 : List QC) (phase0 : QC)
    (U0 : List (List QC)) (tlim0 : ℚ) (fuel : ℕ) (st : PropState)
    (htl : ∀ k v, 0 ≤ (od k v).tlim) (h0 : 0 ≤ tlim0) (hm : 0 < maxtime)
    (hrun : propRun od maxtime fuel 1 (preLoop m0 Amu00 phase0 U0 tlim0) = some st) :
    List.Chain' (· ≤ ·) st.grid ∧
    (∀ x ∈ st.grid.dropLast, x < maxtime) ∧
    ∃ prev step, 0 ≤ step ∧ prev < maxtime ∧
      st.grid.getLast? = some (prev + step) := by
  have hinv : GridInv maxtime (preLoop m0 Amu00 phase0 U0 tlim0) := by
    refine ⟨rfl, ?_, ?_, ⟨0, tlim0, h0, hm, (zero_add tlim0).symm⟩⟩
    · show List.Chain' (· ≤ ·) [0, tlim0]
      simp [List.chain'_cons, h0]
    · show ∀ x ∈ ([0, tlim0] : List ℚ).dropLast, x < maxtime
      intro x hx
      simp only [List.dropLast, List.mem_singleton] at hx
      rw [hx]
      exact hm
  obtain ⟨hlast, hchain, hdrop, prev, step, hs0, hsm, hts⟩ :=
    gridInv_propRun od maxtime htl fuel 1 _ st hinv hrun
  exact ⟨hchain, hdrop, prev, step, hs0, hsm, by rw [hlast, hts]⟩

/-- C6: for a seed of nonzero Euclidean norm (`nrm2 ≠ 0` with
`nrm2^2 = ⟨v,v⟩`), the correlation sample recorded at t = 0 equals exactly
`1 + 0i`: the first Krylov vector is the normalized seed, the amplitude
vector is `e_1`, and the phase factor `exp(i·E0·0)` is one. -/
theorem t0_sample_eq_one (n m : ℕ) (hm : 0 < m) (v : ℕ → ℝ) (nrm2 : ℝ)
    (hnz : nrm2 ≠ 0) (hsq : nrm2 ^ 2 = dotR n v v) (A : ℕ → ℕ → ℝ)
    (hA0 : A 0 = lanczosFirstVec n (mu0vec v nrm2)) (e : ℝ) :
    t0Sample n m A (mu0vec v nrm2) e = 1 := by
  have hvv : dotR n v v = nrm2 ^ 2 := hsq.symm
  have hmu : dotR n (mu0vec v nrm2) (mu0vec v nrm2) = 1 := by
    have expand : dotR n (mu0vec v nrm2) (mu0vec v nrm2)
        = dotR n v v * (1 / nrm2 * (1 / nrm2)) := by
      unfold dotR mu0vec
      rw [Finset.sum_mul]
      exact Finset.sum_congr rfl fun k _ => by ring
    rw [expand, hvv]
    field_simp
    ring
  have hA0dot : dotR n (A 0) (mu0vec v nrm2) = 1 := by
    rw [hA0]
    have hfix : lanczosFirstVec n (mu0vec v nrm2) = mu0vec v nrm2 := by
      funext k
      unfold lanczosFirstVec
      rw [hmu, Real.sqrt_one, div_one]
    rw [hfix, hmu]
  unfold t0Sample
  have hphase : Complex.exp (Complex.I * (e : ℂ) * 0) = 1 := by
    rw [mul_zero, Complex.exp_zero]
  have hsum : (∑ k in Finset.range m, ((dotR n (A k) (mu0vec v nrm2) : ℝ) : ℂ) * e1C k)
      = ((dotR n (A 0) (mu0vec v nrm2) : ℝ) : ℂ) * e1C 0 :=
    Finset.sum_eq_single 0 (fun b _ hb => by simp [e1C, hb])
      (fun h => absurd (Finset.mem_range.mpr hm) h)
  rw [hphase, mul_one, hsum, hA0dot]
  simp [e1C]

/-- Witness for `t0_sample_eq_one` on the seed `(3, 4)` of norm 5. -/
theorem t0_sample_eq_one_witness :
    (0 : ℕ) < 1 ∧ (5 : ℝ) ≠ 0 ∧
    (5 : ℝ) ^ 2 = dotR 2 (fun k => if k = 0 then (3 : ℝ) else if k = 1 then 4 else 0)
      (fun k => if k = 0 then (3 : ℝ) else if k = 1 then 4 else 0) ∧
    t0Sample 2 1
      (fun _ => lanczosFirstVec 2
        (mu0vec (fun k => if k = 0 then (3 : ℝ) else if k = 1 then 4 else 0) 5))
      (mu0vec (fun k => if k = 0 then (3 : ℝ) else if k = 1 then 4 else 0) 5) 0 = 1 := by
  have hsq : (5 : ℝ) ^ 2
      = dotR 2 (fun k => if k = 0 then (3 : ℝ) else if k = 1 then 4 else 0)
        (fun k => if k = 0 then (3 : ℝ) else if k = 1 then 4 else 0) := by
    norm_num [dotR, Finset.sum_range_succ]
  exact ⟨Nat.one_pos, by norm_num, hsq,
    t0_sample_eq_one 2 1 Nat.one_pos _ 5 (by norm_num) hsq _ rfl 0⟩

/-- C7 (amended): on the real-valued arrays `time_limit` is actually invoked
with — the first restart's eigendecomposition, and the entrywise real parts
taken on every later restart — the source computes exactly the spec's
formula `(factorial(m-1)/‖w^(m-1) ⊙ T[:,m-1]‖)^(1/(m-1)) · thr^(0.5/(m-1))`. -/
theorem time_limit_eq_spec (T : ℕ → ℕ → ℝ) (w : ℕ → ℝ) (thr : ℝ) (m : ℕ) :
    time_limit T w thr m = specTimeLimit m w (fun p q => ((T p q : ℝ) : ℂ)) thr := by
  simp only [time_limit, specTimeLimit]
  rw [show (∑ k in Finset.range m,
        Complex.normSq ((w k ^ (m - 1) : ℝ) * ((T k (m - 1) : ℝ) : ℂ)))
      = ∑ k in Finset.range m, (w k ^ (m - 1) * T k (m - 1)) ^ 2 from
    Finset.sum_congr rfl fun k _ => by
      rw [← Complex.ofReal_mul, Complex.normSq_ofReal]
      ring]

/-- C7 (counterexample): at a restart with Krylov dimension 2 whose
eigenvector matrix has the complex trailing column `(3i/5, 4/5)`, the
source's step — `time_limit` applied to the entrywise real parts — differs
from the claim's formula evaluated on the complex eigenvectors themselves. -/
theorem time_limit_realpart_cex :
    time_limit (fun p q => (Tcex p q).re) (fun _ => 1) (1 / 1000000) 2 ≠
      specTimeLimit 2 (fun _ => 1) Tcex (1 / 1000000) := by
  have h01 : (Tcex 0 1).re = 0 := by
    simp [Tcex]
  have h11 : (Tcex 1 1).re = 4 / 5 := by
    simp [Tcex]
  have hL : time_limit (fun p q => (Tcex p q).re) (fun _ => 1) (1 / 1000000) 2
      = 1 / 800 := by
    simp only [time_limit]
    rw [Finset.sum_range_succ, Finset.sum_range_succ, Finset.sum_range_zero]
    norm_num [h01, h11]
    rw [show (25 : ℝ) = 5 ^ 2 by norm_num, show (16 : ℝ) = 4 ^ 2 by norm_num,
      Real.sqrt_sq (by norm_num : (0 : ℝ) ≤ 5),
      Real.sqrt_sq (by norm_num : (0 : ℝ) ≤ 4), ← Real.sqrt_eq_rpow,
      show (1 / 1000000 : ℝ) = (1 / 1000) ^ 2 by norm_num,
      Real.sqrt_sq (by norm_num : (0 : ℝ) ≤ 1 / 1000)]
    norm_num
  have hR : specTimeLimit 2 (fun _ => 1) Tcex (1 / 1000000) = 1 / 1000 := by
    simp only [specTimeLimit]
    rw [Finset.sum_range_succ, Finset.sum_range_succ, Finset.sum_range_zero]
    norm_num [Tcex, Complex.normSq_mul, Complex.normSq_I, Complex.normSq_ofReal]
    rw [← Real.sqrt_eq_rpow, show (1 / 1000000 : ℝ) = (1 / 1000) ^ 2 by norm_num,
      Real.sqrt_sq (by norm_num : (0 : ℝ) ≤ 1 / 1000)]
  rw [hL, hR]
  norm_num

/-- Witness for `time_grid_monotone_bounded` on a concrete zero-iteration
run with `tlim0 = 2` and `maxtime = 1`. -/
theorem time_grid_monotone_bounded_witness :
    (∀ (k : ℕ) (v : List QC), 0 ≤ ((fun _ _ => RestartData.mk [] 1 1 []) k v).tlim) ∧
    (0 : ℚ) ≤ 2 ∧ (0 : ℚ) < 1 ∧
    propRun (fun _ _ => RestartData.mk [] 1 1 []) 1 0 1 (preLoop 1 [] 1 [] 2)
        = some (preLoop 1 [] 1 [] 2) ∧
    (List.Chain' (· ≤ ·) (preLoop 1 [] 1 [] 2).grid ∧
      (∀ x ∈ (preLoop 1 [] 1 [] 2).grid.dropLast, x < (1 : ℚ)) ∧
      ∃ prev step, 0 ≤ step ∧ prev < (1 : ℚ) ∧
        (preLoop 1 [] 1 [] 2).grid.getLast? = some (prev + step)) :=
  ⟨fun _ _ => by norm_num, by norm_num, by norm_num, rfl,
    time_grid_monotone_bounded (fun _ _ => RestartData.mk [] 1 1 []) 1 1 [] 1 [] 2 0
      (preLoop 1 [] 1 [] 2) (fun _ _ => by norm_num) (by norm_num) (by norm_num) rfl⟩
